import Mathlib

/-!
Verification of the iSCAT file-conversion routines
(src/hello2/iSCAT_file_conversions.py) against their specification.

The Python source is shallowly embedded: images are nested lists of natural
numbers (pixel values of the unsigned-integer image files), Python strings are
lists of character code points, fallible steps return `Except PyError`, and
the numpy reshape/stack operations are modelled by explicit list chunking and
concatenation in row-major (C) order, which is numpy's layout.
-/

namespace ISCAT

/-- A 2-D image frame: a list of rows, each row a list of pixel values. -/
abbrev Frame := List (List Nat)

/-- Python-level failures that the conversion routines can raise.
`valueErrorReshape` is the ValueError raised by numpy.reshape when the total
element count does not match the requested shape; `valueErrorRagged` is the
ValueError raised by numpy.array on ragged (inhomogeneous-shape) input;
`unboundLocalImage` is the UnboundLocalError raised at line 183 when the
loop variable `image` was never bound; `zeroDivisionError` models division by
zero at line 250; `indexError` models indexing into an empty array. -/
inductive PyError where
  | valueErrorReshape
  | valueErrorRagged
  | unboundLocalImage
  | zeroDivisionError
  | indexError
  deriving DecidableEq

/-- Row-major flattening of a frame sequence: the 1-D, C-order data of the
(N, H, W) numpy array, i.e. the frames concatenated in order, each frame row
by row.  This is what numpy.reshape(images, (H * W * N)) produces at
line 187 of the source. -/
def flattenSeq {α : Type} (seq : List (List (List α))) : List α :=
  (seq.map List.flatten).flatten

/-- Split a flat list into n consecutive chunks of w elements each: the
row/frame structure that numpy.reshape produces in C order. -/
def reshapeRows {α : Type} (w : Nat) : Nat → List α → List (List α)
  | 0, _ => []
  | n + 1, xs => xs.take w :: reshapeRows w n (xs.drop w)

/-- numpy.reshape of a 1-D array to shape (n, h, w): succeeds exactly when
the total element count matches, and otherwise raises ValueError. -/
def reshape3 {α : Type} (n h w : Nat) (xs : List α) :
    Except PyError (List (List (List α))) :=
  if xs.length = n * (h * w) then
    .ok ((reshapeRows (h * w) n xs).map fun fr => reshapeRows w h fr)
  else .error .valueErrorReshape

/-- Data path of tdms_to_images (source lines 241-253), with
imageSize standing for ylength = int(attributes['Image size']) and
imageSize2 for xlength = int(attributes['Image size 2']):
number_of_frames = int(len(data_raw) / (ylength * xlength)) — Python's float
division by zero raises ZeroDivisionError, and for positive operands int() of
the quotient is the floor, i.e. Nat division — followed by
data = numpy.reshape(data_raw, (number_of_frames, ylength, xlength)). -/
def tdms_to_images_data {α : Type} (dataRaw : List α) (imageSize imageSize2 : Nat) :
    Except PyError (List (List (List α))) :=
  if imageSize * imageSize2 = 0 then .error .zeroDivisionError
  else
    reshape3 (dataRaw.length / (imageSize * imageSize2)) imageSize imageSize2 dataRaw

/-- A frame sequence of uniform shape: every frame has h rows, every row has
w pixels. -/
def wellFormedSeq {α : Type} (seq : List (List (List α))) (h w : Nat) : Bool :=
  seq.all fun f => f.length == h && f.all fun r => r.length == w

theorem wellFormedSeq_iff {α : Type} (seq : List (List (List α))) (h w : Nat) :
    wellFormedSeq seq h w = true ↔
      ∀ f ∈ seq, f.length = h ∧ ∀ r ∈ f, r.length = w := by
  simp [wellFormedSeq]

/-- Concatenating lists of a common length k yields length (count * k). -/
theorem flatten_length_const {α : Type} (L : List (List α)) (k : Nat)
    (hk : ∀ l ∈ L, l.length = k) : L.flatten.length = L.length * k := by
  induction L with
  | nil => simp
  | cons l L ih =>
      have hl : l.length = k := hk l (by simp)
      have ihL : L.flatten.length = L.length * k := ih fun x hx => hk x (by simp [hx])
      simp [hl, ihL, Nat.succ_mul, Nat.add_comm]

/-- Chunking the concatenation of lists of a common positive length k
recovers the original list of lists. -/
theorem reshapeRows_flatten {α : Type} (L : List (List α)) (k : Nat)
    (hlen : ∀ l ∈ L, l.length = k) :
    reshapeRows k L.length L.flatten = L := by
  induction L with
  | nil => simp [reshapeRows]
  | cons l L ih =>
      have hl : l.length = k := hlen l (by simp)
      have htake : (l ++ L.flatten).take k = l := by
        rw [← hl]; exact List.take_left l L.flatten
      have hdrop : (l ++ L.flatten).drop k = L.flatten := by
        rw [← hl]; exact List.drop_left l L.flatten
      simp only [List.length_cons, reshapeRows, List.flatten_cons, htake, hdrop]
      rw [ih fun x hx => hlen x (by simp [hx])]

theorem flattenSeq_length {α : Type} (seq : List (List (List α))) (h w : Nat)
    (hwf : wellFormedSeq seq h w = true) :
    (flattenSeq seq).length = seq.length * (h * w) := by
  rw [wellFormedSeq_iff] at hwf
  have hinner : ∀ l ∈ seq.map List.flatten, l.length = h * w := by
    intro l hl
    rcases List.mem_map.mp hl with ⟨f, hf, rfl⟩
    rcases hwf f hf with ⟨hfl, hrows⟩
    rw [flatten_length_const f w hrows, hfl]
  rw [flattenSeq, flatten_length_const (seq.map List.flatten) (h * w) hinner,
    List.length_map]

/-- C1.  Round-trip law of the shape codec: flattening a frame sequence of N
frames of h rows by w columns in row-major order (as convert_images_to_tdms
does when it reshapes the (N, H, W) float array to 1-D) and reading it back
through the data path of tdms_to_images (which recovers N by dividing the
array length by the two recorded per-frame dimensions and reshapes to
(N, 'Image size', 'Image size 2')) yields the original sequence exactly:
frame order, row/column orientation and all values preserved, for data of any
type. -/
theorem c1_shape_codec_roundtrip {α : Type} (seq : List (List (List α)))
    (h w : Nat) (hh : 0 < h) (hw : 0 < w) (hwf : wellFormedSeq seq h w = true) :
    tdms_to_images_data (flattenSeq seq) h w = .ok seq := by
  have hwf' := (wellFormedSeq_iff seq h w).mp hwf
  have hhw : 0 < h * w := Nat.mul_pos hh hw
  have hlen : (flattenSeq seq).length = seq.length * (h * w) :=
    flattenSeq_length seq h w hwf
  have hdiv : (flattenSeq seq).length / (h * w) = seq.length := by
    rw [hlen]; exact Nat.mul_div_cancel seq.length hhw
  have hinner : ∀ l ∈ seq.map List.flatten, l.length = h * w := by
    intro l hl
    rcases List.mem_map.mp hl with ⟨f, hf, rfl⟩
    rcases hwf' f hf with ⟨hfl, hrows⟩
    rw [flatten_length_const f w hrows, hfl]
  have houter : reshapeRows (h * w) seq.length (flattenSeq seq) = seq.map List.flatten := by
    have := reshapeRows_flatten (seq.map List.flatten) (h * w) hinner
    rwa [List.length_map] at this
  have hback : (reshapeRows (h * w) seq.length (flattenSeq seq)).map
      (fun fr => reshapeRows w h fr) = seq := by
    rw [houter, List.map_map]
    have hid : ∀ f ∈ seq, (fun fr => reshapeRows w h fr) (List.flatten f) = f := by
      intro f hf
      rcases hwf' f hf with ⟨hfl, hrows⟩
      simpa [← hfl] using reshapeRows_flatten f w hrows
    calc seq.map ((fun fr => reshapeRows w h fr) ∘ List.flatten)
        = seq.map id := List.map_congr_left hid
      _ = seq := List.map_id seq
  rw [tdms_to_images_data, if_neg (by omega : ¬ (h * w = 0)), hdiv, reshape3,
    if_pos hlen, hback]

/-- Concrete instance of C1: a 2-frame sequence of 2 by 2 frames survives the
round trip. -/
theorem c1_shape_codec_roundtrip_witness :
    tdms_to_images_data (flattenSeq [[[1, 2], [3, 4]], [[5, 6], [7, 8]]]) 2 2 =
      .ok [[[1, 2], [3, 4]], [[5, 6], [7, 8]]] :=
  c1_shape_codec_roundtrip (α := Nat) [[[1, 2], [3, 4]], [[5, 6], [7, 8]]] 2 2
    (by decide) (by decide) (by decide)

/-- C4.  Length-mismatch rejection: if the length of the raw 1-D array is not
divisible by the product of the two recorded per-frame dimensions, the data
path of tdms_to_images fails with the ValueError that numpy.reshape raises on
a total-size mismatch (the LengthMismatch rejection of the spec); no frames
are produced and no trailing elements are dropped. -/
theorem c4_length_mismatch {α : Type} (dataRaw : List α) (h w : Nat)
    (hpos : 0 < h * w) (hndvd : ¬ (h * w) ∣ dataRaw.length) :
    tdms_to_images_data dataRaw h w = .error .valueErrorReshape := by
  rw [tdms_to_images_data, if_neg (by omega : ¬ (h * w = 0))]
  rw [reshape3, if_neg]
  intro hlen
  apply hndvd
  refine ⟨dataRaw.length / (h * w), ?_⟩
  conv_lhs => rw [hlen]
  ring

/-- Concrete instance of C4: a 3-element array cannot be reshaped with frames
of 1 by 2 pixels. -/
theorem c4_length_mismatch_witness :
    tdms_to_images_data ([5, 6, 7] : List Nat) 1 2 = .error .valueErrorReshape :=
  c4_length_mismatch [5, 6, 7] 1 2 (by decide) (by decide)

/-- Code points of 'img', the fixed group name. -/
def imgChars : List Nat := [105, 109, 103]

/-- Code points of 'cam1', the fixed channel name. -/
def cam1Chars : List Nat := [99, 97, 109, 49]

/-- Code points of 'frame', used both as the h5 dataset name and as the
exported-filename prefix. -/
def frameChars : List Nat := [102, 114, 97, 109, 101]

/-- Code points of 'event', the substring the Oxford analysis software
requires in a .tdms filename. -/
def eventChars : List Nat := [101, 118, 101, 110, 116]

/-- Floor of the base-2 logarithm, driven by explicit fuel so that it is
structurally recursive; lg2 n n is floor(log2 n) since at most n halvings are
ever needed. -/
def lg2 : Nat → Nat → Nat
  | 0, _ => 0
  | fuel + 1, n => if n < 2 then 0 else lg2 fuel (n / 2) + 1

/-- Rounding of a natural number to the nearest IEEE-754 binary32 value
(24-bit significand, ties to even), expressed in exact integer arithmetic.
This is the effect of the dtype = numpy.float32 cast at line 181 of the
source on a nonnegative integer pixel value (well inside the float32
exponent range). -/
def roundF32 (n : Nat) : Nat :=
  if n < 2 ^ 24 then n
  else
    let e := lg2 n n - 23
    let q := n / 2 ^ e
    let r := n % 2 ^ e
    if 2 * r < 2 ^ e then q * 2 ^ e
    else if 2 ^ e < 2 * r then (q + 1) * 2 ^ e
    else if q % 2 = 0 then q * 2 ^ e else (q + 1) * 2 ^ e

/-- The float32 cast applied elementwise to a frame sequence:
numpy.array(images, dtype = numpy.float32) on well-shaped input. -/
def castF32Seq (seq : List Frame) : List Frame :=
  seq.map fun f => f.map fun row => row.map roundF32

/-- Success condition of numpy.array(images, dtype = numpy.float32) on a list
of 2-D frames: every frame must have as many rows as the first frame and
every row of every frame must be as long as the first row of the first frame;
otherwise numpy raises ValueError on the ragged (inhomogeneous) input.  An
empty list is accepted (it yields an empty array). -/
def stackOk (images : List Frame) : Bool :=
  match images with
  | [] => true
  | f :: _ =>
      images.all fun g =>
        g.length == f.length && g.all fun row => row.length == (f.headD []).length

/-- The channel object and file write produced by convert_images_to_tdms:
group 'img', channel 'cam1', the flattened float data, the channel properties
'Image size' and 'Image size 2', and the path of the file written by
TdmsWriter(str(target_file)). -/
structure TdmsChannel where
  group : List Nat
  channel : List Nat
  data : List Nat
  imageSize : Nat
  imageSize2 : Nat
  target : List Nat
  deriving DecidableEq

/-- Model of convert_images_to_tdms (source lines 171-217) from the point
where the image files named by the sorted matching filenames have been loaded
into the list images.  In source order:
images = numpy.array(images, dtype = numpy.float32), which raises ValueError
on ragged input; xlength = image.shape[0] and ylength = image.shape[1], where
image is the loop variable, i.e. the last loaded image — never bound when
there were zero files, so that line raises UnboundLocalError; data =
numpy.reshape(images, (shape0 * shape1 * number_of_frames)), the row-major
1-D array; the channel gets properties 'Image size' = xlength and
'Image size 2' = ylength; TdmsWriter writes at the caller-supplied
target_file, which is used unchanged. -/
def convert_images_to_tdms (images : List Frame) (target_file : List Nat) :
    Except PyError TdmsChannel :=
  if stackOk images then
    match images.getLast? with
    | none => .error .unboundLocalImage
    | some image =>
        .ok { group := imgChars
              channel := cam1Chars
              data := flattenSeq (castF32Seq images)
              imageSize := image.length
              imageSize2 := (image.headD []).length
              target := target_file }
  else .error .valueErrorRagged

/-- The numpy shape of a single 2-D frame given as nested lists. -/
def npShape2 (f : Frame) : List Nat := [f.length, (f.headD []).length]

/-- C6.  Empty-input behaviour: when zero files in the directory match the
requested extension, the loaded image list is empty and
convert_images_to_tdms fails before writing anything — the loop variable
`image` was never bound, so evaluating image.shape raises an error
(UnboundLocalError) that surfaces to the caller; no output container is
written and no empty sequence is silently processed. -/
theorem c6_empty_input (target : List Nat) :
    convert_images_to_tdms [] target = .error .unboundLocalImage := rfl

/-- C7.  Shape-mismatch rejection: if two loaded frames have different
(rows, columns) shapes, convert_images_to_tdms fails with the ValueError that
numpy.array raises on ragged input — no truncation, no padding, and no
container is written with dimensions describing only one of the frames. -/
theorem c7_shape_mismatch (images : List Frame) (target : List Nat)
    (f g : Frame) (hf : f ∈ images) (hg : g ∈ images)
    (hne : npShape2 f ≠ npShape2 g) :
    convert_images_to_tdms images target = .error .valueErrorRagged := by
  rw [convert_images_to_tdms]
  rw [if_neg]
  intro hok
  apply hne
  match images, hf with
  | f0 :: rest, hf =>
    have hall := (List.all_eq_true.mp hok)
    have hshape : ∀ x ∈ f0 :: rest, x.length = f0.length ∧
        ∀ row ∈ x, row.length = (f0.headD []).length := by
      intro x hx
      have := hall x hx
      simp only [Bool.and_eq_true, beq_iff_eq, List.all_eq_true] at this
      exact ⟨this.1, this.2⟩
    rcases hshape f hf with ⟨hflen, hfrows⟩
    rcases hshape g hg with ⟨hglen, hgrows⟩
    have hfhead : (f.headD []).length = (f0.headD []).length := by
      cases f with
      | nil =>
          have h0 : f0.length = 0 := by simpa using hflen.symm
          have hnil : f0 = [] := List.length_eq_zero.mp h0
          subst hnil; simp
      | cons r rs => exact hfrows r (by simp)
    have hghead : (g.headD []).length = (f0.headD []).length := by
      cases g with
      | nil =>
          have h0 : f0.length = 0 := by simpa using hglen.symm
          have hnil : f0 = [] := List.length_eq_zero.mp h0
          subst hnil; simp
      | cons r rs => exact hgrows r (by simp)
    rw [npShape2, npShape2, hflen, hglen, hfhead, hghead]

/-- Concrete instance of C7: a batch of a 1-by-2 frame and a 1-by-1 frame is
rejected. -/
theorem c7_shape_mismatch_witness :
    convert_images_to_tdms [[[1, 2]], [[3]]] [] = .error .valueErrorRagged :=
  c7_shape_mismatch [[[1, 2]], [[3]]] [] [[1, 2]] [[3]]
    (by decide) (by decide) (by decide)

/-- Code points of 'movie00.tdms', a target filename not containing 'event'. -/
def movieChars : List Nat := [109, 111, 118, 105, 101, 48, 48, 46, 116, 100, 109, 115]

/-- Wildcard prefix match for a regular expression built from literal
characters and '.', the only regex syntax occurring in the extension strings
used here: does the pattern match a prefix of s ('.', code 46, matches any
character). -/
def wildPrefix : List Nat → List Nat → Bool
  | [], _ => true
  | _ :: _, [] => false
  | p :: ps, c :: cs => (p == 46 || p == c) && wildPrefix ps cs

/-- Model of re.search(pattern, s) being a match, for such patterns: the
pattern matches at some position of s. -/
def reSearch (pat : List Nat) : List Nat → Bool
  | [] => wildPrefix pat []
  | c :: cs => wildPrefix pat (c :: cs) || reSearch pat cs

/-- C5.  Filename-convention behaviour at the concrete input of one 1-by-1
frame and target filename 'movie00.tdms': convert_images_to_tdms writes the
.tdms file at exactly the caller-supplied path, although that path does not
contain the substring 'event' — there is no check, no warning, and no
automatic appending, contradicting the function's own docstring (line 125:
the string "is currently appended to the filename automatically"). -/
theorem c5_no_event_enforcement :
    (convert_images_to_tdms [[[0]]] movieChars).map (fun c => c.target) =
      .ok movieChars ∧
    reSearch eventChars movieChars = false :=
  ⟨rfl, rfl⟩

/-- C9 counterexample: 16777218 = 2^24 + 2 exceeds 2^24 yet is exactly
representable in float32, so convert_images_to_tdms writes that pixel value
unchanged — refuting the claim that every integer pixel value above 2^24 is
not representable exactly in the written container. -/
theorem c9_exact_value_above_bound :
    2 ^ 24 < 16777218 ∧
    (convert_images_to_tdms [[[16777218]]] []).map (fun c => c.data) =
      .ok [16777218] :=
  ⟨by decide, rfl⟩

/-- Precision lemma: the float32 cast leaves every natural number up to 2^24
unchanged. -/
theorem roundF32_eq_self (n : Nat) (hn : n ≤ 2 ^ 24) : roundF32 n = n := by
  rcases Nat.lt_or_ge n (2 ^ 24) with hlt | hge
  · rw [roundF32, if_pos hlt]
  · have heq : n = 2 ^ 24 := Nat.le_antisymm hn hge
    subst heq
    decide

theorem castF32Seq_eq_self (images : List Frame)
    (hb : ∀ f ∈ images, ∀ row ∈ f, ∀ p ∈ row, p ≤ 2 ^ 24) :
    castF32Seq images = images := by
  rw [castF32Seq]
  have h1 : ∀ f ∈ images, (f.map fun row => row.map roundF32) = id f := by
    intro f hf
    have h2 : ∀ row ∈ f, row.map roundF32 = id row := by
      intro row hrow
      have h3 : ∀ p ∈ row, roundF32 p = id p := fun p hp =>
        roundF32_eq_self p (hb f hf row hrow p hp)
      simpa using List.map_congr_left h3
    simpa using List.map_congr_left h2
  simpa using List.map_congr_left h1

/-- C9 as amended.  convert_images_to_tdms casts every pixel to float32
(modelled by roundF32); the cast is exact for every value up to 2^24, so
whenever all pixels are at most 2^24 the written 1-D data is exactly the
row-major flattening of the original integer frames, while the value
2^24 + 1 is altered by the cast (to 2^24) — the bound 2^24 is where exactness
is first lost, although not every larger value is altered. -/
theorem c9_float32_cast_bound :
    (∀ (images : List Frame) (target : List Nat) (out : TdmsChannel),
        convert_images_to_tdms images target = .ok out →
        (∀ f ∈ images, ∀ row ∈ f, ∀ p ∈ row, p ≤ 2 ^ 24) →
        out.data = flattenSeq images) ∧
    roundF32 (2 ^ 24 + 1) = 2 ^ 24 := by
  constructor
  · intro images target out hok hb
    rw [convert_images_to_tdms] at hok
    by_cases hs : stackOk images = true
    · rw [if_pos hs] at hok
      cases hgl : images.getLast? with
      | none => rw [hgl] at hok; cases hok
      | some image =>
          rw [hgl] at hok
          cases hok
          show flattenSeq (castF32Seq images) = flattenSeq images
          rw [castF32Seq_eq_self images hb]
    · rw [if_neg hs] at hok; cases hok
  · decide

/-- Concrete instance of the amended C9: a pixel value 3 is written
unchanged. -/
theorem c9_float32_cast_bound_witness :
    ({ group := imgChars, channel := cam1Chars, data := [3], imageSize := 1,
       imageSize2 := 1, target := [] } : TdmsChannel).data = flattenSeq [[[3]]] :=
  c9_float32_cast_bound.1 [[[3]]] []
    { group := imgChars, channel := cam1Chars, data := [3], imageSize := 1,
      imageSize2 := 1, target := [] } rfl (by decide)

/-- An h5 file as written by the .mp conversions: the single dataset name,
and the stored array given by its numpy shape and its row-major (C order)
element data. -/
structure H5File where
  datasetName : List Nat
  shape : List Nat
  data : List Nat
  deriving DecidableEq

/-- The numpy shape of a well-formed (N, H, W) stack given as nested lists. -/
def npShape3 (frames : List Frame) : List Nat :=
  [frames.length, (frames.headD []).length, ((frames.headD []).headD []).length]

/-- Model of tiff_to_mp with single_stack = False (source lines 97-113).
TiffSequence.asarray is an external collaborator; per the tifffile
documentation it stacks the images of the matched files along a new first
axis, producing the (N, H, W) array, modelled here by the input list of
frames.  The source then takes data = data[0] — the first element along the
first axis, i.e. the first frame — and h5py writes dataset 'frame' holding
it; indexing an empty array raises IndexError. -/
def tiff_to_mp_sequence (frames : List Frame) : Except PyError H5File :=
  match frames with
  | [] => .error .indexError
  | f :: _ =>
      .ok { datasetName := frameChars, shape := npShape2 f, data := f.flatten }

/-- Model of png_to_mp (source lines 343-367): the images of the matched
files are loaded in order, numpy.asarray stacks them into the (N, H, W)
array, and h5py writes dataset 'frame' holding that array in its original
shape.  No dtype cast is applied on this path. -/
def png_to_mp (frames : List Frame) : H5File :=
  { datasetName := frameChars, shape := npShape3 frames, data := flattenSeq frames }

/-- C2 at the spec's end-to-end input (three 1-by-1 frames with values 0,
128, 255): png_to_mp writes dataset 'frame' with shape (3, 1, 1) holding all
three frames in order, but tiff_to_mp with single_stack = False writes
dataset 'frame' with shape (1, 1) holding only the first frame — the
data = data[0] step at line 105 discards all frames but the first, which
also contradicts the function's documented output "A numpy array of all
images". -/
theorem c2_tiff_first_frame_only :
    tiff_to_mp_sequence [[[0]], [[128]], [[255]]] =
      .ok { datasetName := frameChars, shape := [1, 1], data := [0] } ∧
    png_to_mp [[[0]], [[128]], [[255]]] =
      { datasetName := frameChars, shape := [3, 1, 1], data := [0, 128, 255] } ∧
    ([1, 1] : List Nat) ≠ [3, 1, 1] :=
  ⟨rfl, rfl, by decide⟩

/-- Model of the stack read of tiff_to_mp with single_stack = True (source
lines 92-95): data = file.asarray(key=slice(0, 100000)) reads only the pages
with index below the hard-coded bound numberAboveTotalFrames = 100000. -/
def tiff_stack_read (pages : List Frame) : List Frame :=
  pages.take 100000

/-- tiff_to_mp with single_stack = True: the truncated stack is written as
h5py dataset 'frame'. -/
def tiff_to_mp_stack (pages : List Frame) : H5File :=
  { datasetName := frameChars, shape := npShape3 (tiff_stack_read pages),
    data := flattenSeq (tiff_stack_read pages) }

/-- C10.  Hard-coded slice bound: for a stack of more than 100000 pages,
tiff_to_mp in single-stack mode reads exactly the first 100000 frames — the
result agrees with the source on every index below 100000, has length
exactly 100000 (so it is not the full stack), and the written container is
identical to the one produced from the truncated stack. -/
theorem c10_stack_truncation (pages : List Frame) (hlen : 100000 < pages.length) :
    (tiff_stack_read pages).length = 100000 ∧
    (∀ i, i < 100000 → (tiff_stack_read pages)[i]? = pages[i]?) ∧
    tiff_stack_read pages ≠ pages ∧
    tiff_to_mp_stack pages = tiff_to_mp_stack (pages.take 100000) := by
  refine ⟨?_, ?_, ?_, ?_⟩
  · rw [tiff_stack_read, List.length_take]; omega
  · intro i hi
    rw [tiff_stack_read, List.getElem?_take]
    exact if_pos hi
  · intro he
    have hcl := congrArg List.length he
    rw [tiff_stack_read, List.length_take] at hcl
    omega
  · simp [tiff_to_mp_stack, tiff_stack_read, List.take_take]

/-- Concrete instance of C10: a 100001-page stack is cut to 100000 frames. -/
theorem c10_stack_truncation_witness :
    (tiff_stack_read (List.replicate 100001 ([] : List (List Nat)))).length = 100000 ∧
    (∀ i, i < 100000 → (tiff_stack_read (List.replicate 100001 ([] : List (List Nat))))[i]? =
      (List.replicate 100001 ([] : List (List Nat)))[i]?) ∧
    tiff_stack_read (List.replicate 100001 ([] : List (List Nat))) ≠
      List.replicate 100001 ([] : List (List Nat)) ∧
    tiff_to_mp_stack (List.replicate 100001 ([] : List (List Nat))) =
      tiff_to_mp_stack ((List.replicate 100001 ([] : List (List Nat))).take 100000) :=
  c10_stack_truncation (List.replicate 100001 [])
    (by rw [List.length_replicate]; omega)

/-- Decimal digits of n, most significant first: the digits of Python
str(n). -/
def pyStrNat (n : Nat) : List Nat :=
  if _h : n < 10 then [n] else pyStrNat (n / 10) ++ [n % 10]
termination_by n
decreasing_by exact Nat.div_lt_self (by omega) (by omega)

/-- Python str(n): the decimal digit characters (code points) of n. -/
def pyStr (n : Nat) : List Nat := (pyStrNat n).map (· + 48)

/-- Python str.zfill(w) on an unsigned digit string: left-pad with '0'
(code 48) to width w. -/
def zfill (w : Nat) (s : List Nat) : List Nat :=
  List.replicate (w - s.length) 48 ++ s

/-- Exported filename of frame i (source line 267):
'frame' + str(i).zfill(5) + image_file_extension. -/
def fileTag (i : Nat) (ext : List Nat) : List Nat :=
  frameChars ++ zfill 5 (pyStr i) ++ ext

/-- Observable behaviour of the save branch of tdms_to_images: whether the
interactive console prompt was issued, whether the destination directory was
created, and which files were written, in order. -/
structure SaveTrace where
  prompted : Bool
  mkdirCalled : Bool
  savedFiles : List (List Nat)
  deriving DecidableEq

/-- Model of the save branch of tdms_to_images (source lines 255-272).  If
the destination directory exists and is non-empty, answer =
input('This directory is already occupied. ...') — a blocking interactive
console read, modelled by the console argument and the prompted flag; if it
exists and is empty, answer = 'y'; if it does not exist, it is created and
answer = 'y'.  When the answer is 'y' (code point 121) each frame i is saved
as fileTag i extension; otherwise nothing is written. -/
def tdms_to_images_save (dirExists dirNonempty : Bool) (console : List Nat)
    (numFrames : Nat) (ext : List Nat) : SaveTrace :=
  if dirExists then
    if dirNonempty then
      { prompted := true, mkdirCalled := false,
        savedFiles :=
          if console = [121] then (List.range numFrames).map (fileTag · ext) else [] }
    else
      { prompted := false, mkdirCalled := false,
        savedFiles := (List.range numFrames).map (fileTag · ext) }
  else
    { prompted := false, mkdirCalled := true,
      savedFiles := (List.range numFrames).map (fileTag · ext) }

/-- Code points of '.tiff', the default export extension. -/
def tiffChars : List Nat := [46, 116, 105, 102, 102]

/-- C8 counterexample: with an existing, non-empty destination directory the
exporter issues the blocking interactive console prompt — refuting the claim
that tdms_to_images decides overwriting via an explicit policy parameter and
never blocks on interactive console input. -/
theorem c8_interactive_prompt :
    (tdms_to_images_save true true [121] 1 tiffChars).prompted = true := rfl

/-- C8 as amended.  tdms_to_images has no overwrite-policy parameter: it
prompts on the console exactly when the destination directory exists and is
non-empty, creates the directory exactly when it does not exist, and writes
the frame files (named fileTag i extension, in index order) unless it
prompted and the console answer was not 'y'. -/
theorem c8_overwrite_behaviour (dirExists dirNonempty : Bool)
    (console : List Nat) (numFrames : Nat) (ext : List Nat) :
    (tdms_to_images_save dirExists dirNonempty console numFrames ext).prompted =
      (dirExists && dirNonempty) ∧
    (tdms_to_images_save dirExists dirNonempty console numFrames ext).mkdirCalled =
      !dirExists ∧
    (tdms_to_images_save dirExists dirNonempty console numFrames ext).savedFiles =
      (if dirExists = true ∧ dirNonempty = true ∧ console ≠ [121] then []
       else (List.range numFrames).map (fileTag · ext)) := by
  cases dirExists <;> cases dirNonempty <;>
    by_cases hc : console = [121] <;>
      simp [tdms_to_images_save, hc]

/-- Filename collection of convert_images_to_tdms (source lines 172-173):
filenames = sorted([x for x in os.listdir(imagepath) if re.search(extension, x)]).
Python's sorted on strings is a stable sort under the lexicographic
code-point order; on the pairwise-distinct filenames arising here every
correct sorting algorithm returns the unique sorted permutation, so sorted is
modelled by insertion sort under the lexicographic order on code-point
lists. -/
def loader_filenames (listing : List (List Nat)) (ext : List Nat) : List (List Nat) :=
  List.insertionSort (· ≤ ·) (listing.filter fun x => reSearch ext x)

/-- The big-endian k-digit base-10 representation (the digits of n modulo
10^k, most significant first); auxiliary to reasoning about zero-padded
decimal filenames. -/
def beDigits : Nat → Nat → List Nat
  | 0, _ => []
  | k + 1, n => n / 10 ^ k % 10 :: beDigits k n

theorem beDigits_length (k n : Nat) : (beDigits k n).length = k := by
  induction k generalizing n with
  | zero => rfl
  | succ k ih => simp [beDigits, ih]

theorem beDigits_snoc (k n : Nat) :
    beDigits (k + 1) n = beDigits k (n / 10) ++ [n % 10] := by
  induction k generalizing n with
  | zero => simp [beDigits]
  | succ k ih =>
      have hdiv : n / 10 / 10 ^ k = n / 10 ^ (k + 1) := by
        rw [Nat.div_div_eq_div_mul, Nat.pow_succ, Nat.mul_comm]
      calc beDigits (k + 2) n
          = n / 10 ^ (k + 1) % 10 :: beDigits (k + 1) n := rfl
        _ = n / 10 ^ (k + 1) % 10 :: (beDigits k (n / 10) ++ [n % 10]) := by rw [ih]
        _ = (n / 10 / 10 ^ k % 10 :: beDigits k (n / 10)) ++ [n % 10] := by
            rw [hdiv, List.cons_append]
        _ = beDigits (k + 1) (n / 10) ++ [n % 10] := rfl

theorem beDigits_high_zero (k n : Nat) (h : n < 10 ^ k) :
    beDigits (k + 1) n = 0 :: beDigits k n := by
  have : n / 10 ^ k = 0 := Nat.div_eq_of_lt h
  simp [beDigits, this]

theorem beDigits_mod (k n : Nat) : beDigits k (n % 10 ^ k) = beDigits k n := by
  induction k generalizing n with
  | zero => rfl
  | succ k ih =>
      have hhead : n % 10 ^ (k + 1) / 10 ^ k % 10 = n / 10 ^ k % 10 := by
        rw [Nat.pow_succ, Nat.mod_mul_right_div_self, Nat.mod_mod_of_dvd]
        exact Dvd.intro 1 rfl
      have hdvd : 10 ^ k ∣ 10 ^ (k + 1) := pow_dvd_pow 10 (by omega)
      have htail : beDigits k (n % 10 ^ (k + 1)) = beDigits k n := by
        calc beDigits k (n % 10 ^ (k + 1))
            = beDigits k (n % 10 ^ (k + 1) % 10 ^ k) := (ih (n % 10 ^ (k + 1))).symm
          _ = beDigits k (n % 10 ^ k) := by rw [Nat.mod_mod_of_dvd n hdvd]
          _ = beDigits k n := ih n
      simp [beDigits, hhead, htail]

theorem beDigits_lex (k : Nat) : ∀ i j : Nat, i < j → j < 10 ^ k →
    List.Lex (· < ·) (beDigits k i) (beDigits k j) := by
  induction k with
  | zero => intro i j hij hj; omega
  | succ k ih =>
      intro i j hij hj
      have hdij : i / 10 ^ k ≤ j / 10 ^ k := Nat.div_le_div_right (le_of_lt hij)
      have hdj : j / 10 ^ k < 10 := by
        apply Nat.div_lt_of_lt_mul
        rw [← Nat.pow_succ]
        exact hj
      rcases Nat.lt_or_ge (i / 10 ^ k) (j / 10 ^ k) with hlt | hge
      · simp only [beDigits]
        apply List.Lex.rel
        have hdi : i / 10 ^ k < 10 := lt_of_lt_of_le hlt (le_of_lt hdj)
        rw [Nat.mod_eq_of_lt hdi, Nat.mod_eq_of_lt hdj]
        exact hlt
      · have heq : i / 10 ^ k = j / 10 ^ k := Nat.le_antisymm hdij hge
        simp only [beDigits, heq]
        apply List.Lex.cons
        rw [← beDigits_mod k i, ← beDigits_mod k j]
        apply ih
        · have hi := Nat.div_add_mod i (10 ^ k)
          have hj' := Nat.div_add_mod j (10 ^ k)
          rw [heq] at hi
          omega
        · exact Nat.mod_lt j (Nat.pos_pow_of_pos k (by omega))

theorem pyStrNat_lt10 (n : Nat) (h : n < 10) : pyStrNat n = [n] := by
  rw [pyStrNat, dif_pos h]

theorem pyStrNat_ge10 (n : Nat) (h : ¬ n < 10) :
    pyStrNat n = pyStrNat (n / 10) ++ [n % 10] := by
  rw [pyStrNat]
  exact dif_neg h

theorem pyStrNat_length_le (k : Nat) : ∀ n : Nat, 0 < k → n < 10 ^ k →
    (pyStrNat n).length ≤ k := by
  induction k with
  | zero => intro n h; omega
  | succ k ih =>
      intro n _ hn
      by_cases h10 : n < 10
      · rw [pyStrNat_lt10 n h10]
        simp
      · have hk : 0 < k := by
          rcases Nat.eq_zero_or_pos k with rfl | h
          · simp at hn; omega
          · exact h
        have hdiv : n / 10 < 10 ^ k := by
          apply Nat.div_lt_of_lt_mul
          rw [← Nat.pow_succ']
          exact hn
        have := ih (n / 10) hk hdiv
        rw [pyStrNat_ge10 n h10, List.length_append]
        simp only [List.length_singleton]
        omega

theorem pyStrNat_exact (k : Nat) : ∀ n : Nat, 10 ^ k ≤ n → n < 10 ^ (k + 1) →
    pyStrNat n = beDigits (k + 1) n := by
  induction k with
  | zero =>
      intro n h1 h2
      simp only [Nat.pow_zero, Nat.pow_one] at h1 h2
      rw [pyStrNat_lt10 n h2]
      simp only [beDigits, Nat.pow_zero, Nat.div_one]
      have h2' : n < 10 := by simpa using h2
      rw [Nat.mod_eq_of_lt h2']
  | succ k ih =>
      intro n h1 h2
      have h10 : ¬ n < 10 := by
        have : (10:Nat) ≤ 10 ^ (k + 1) := by
          calc (10:Nat) = 10 ^ 1 := by norm_num
            _ ≤ 10 ^ (k + 1) := Nat.pow_le_pow_right (by omega) (by omega)
        omega
      have hd1 : 10 ^ k ≤ n / 10 := by
        rw [Nat.le_div_iff_mul_le (by omega : 0 < 10)]
        calc 10 ^ k * 10 = 10 ^ (k + 1) := (Nat.pow_succ 10 k).symm
          _ ≤ n := h1
      have hd2 : n / 10 < 10 ^ (k + 1) := by
        apply Nat.div_lt_of_lt_mul
        rw [← Nat.pow_succ']
        exact h2
      rw [pyStrNat_ge10 n h10, ih (n / 10) hd1 hd2, ← beDigits_snoc]

theorem zfill_pyStrNat (k : Nat) : ∀ n : Nat, 0 < k → n < 10 ^ k →
    List.replicate (k - (pyStrNat n).length) 0 ++ pyStrNat n = beDigits k n := by
  induction k with
  | zero => intro n h; omega
  | succ k ih =>
      intro n _ hn
      by_cases hlow : n < 10 ^ k
      · rcases Nat.eq_zero_or_pos k with rfl | hkpos
        · have hn0 : n = 0 := by simpa using hlow
          subst hn0
          rw [pyStrNat_lt10 0 (by omega)]
          simp [beDigits]
        · rw [beDigits_high_zero k n hlow]
          have hlen : (pyStrNat n).length ≤ k := pyStrNat_length_le k n hkpos hlow
          have hcount : k + 1 - (pyStrNat n).length = (k - (pyStrNat n).length) + 1 := by
            omega
          rw [hcount, List.replicate_succ, List.cons_append, ih n hkpos hlow]
      · have h1 : 10 ^ k ≤ n := by omega
        rw [pyStrNat_exact k n h1 hn]
        rw [beDigits_length]
        simp

/-- The zero-padded five-character digit string of n below 100000 is the
five-digit big-endian representation shifted into character codes. -/
theorem zfill_pyStr (n : Nat) (hn : n < 100000) :
    zfill 5 (pyStr n) = (beDigits 5 n).map (· + 48) := by
  have he : (10:Nat) ^ 5 = 100000 := by norm_num
  have h5 : n < 10 ^ 5 := by omega
  rw [zfill, pyStr, List.length_map]
  rw [← zfill_pyStrNat 5 n (by omega) h5]
  rw [List.map_append, List.map_replicate]

theorem lex_map_add (c : Nat) : ∀ {a b : List Nat}, List.Lex (· < ·) a b →
    List.Lex (· < ·) (a.map (· + c)) (b.map (· + c)) := by
  intro a b h
  induction h with
  | nil => simp only [List.map_nil, List.map_cons]; exact List.Lex.nil
  | cons h ih => simp only [List.map_cons]; exact List.Lex.cons ih
  | rel hr => simp only [List.map_cons]; exact List.Lex.rel (by omega)

theorem lex_append_same (s t : List Nat) : ∀ {a b : List Nat},
    a.length = b.length → List.Lex (· < ·) a b →
    List.Lex (· < ·) (a ++ s) (b ++ t) := by
  intro a b hlen h
  induction h with
  | nil => simp at hlen
  | cons h ih =>
      simp only [List.cons_append]
      exact List.Lex.cons (ih (by simpa using hlen))
  | rel hr =>
      simp only [List.cons_append]
      exact List.Lex.rel hr

/-- Filenames of exported frames are strictly increasing in the frame index,
in the lexicographic code-point order, as long as the index stays within the
five-digit zero-padding width. -/
theorem fileTag_lex (i j : Nat) (ext : List Nat) (hij : i < j) (hj : j < 100000) :
    List.Lex (· < ·) (fileTag i ext) (fileTag j ext) := by
  rw [fileTag, fileTag]
  apply lex_append_same
  · rw [zfill_pyStr i (by omega), zfill_pyStr j hj]
    simp [beDigits_length]
  · apply List.Lex.append_left
    rw [zfill_pyStr i (by omega), zfill_pyStr j hj]
    apply lex_map_add
    apply beDigits_lex 5 i j hij
    have he : (10:Nat) ^ 5 = 100000 := by norm_num
    omega

theorem wildPrefix_self (pat : List Nat) : wildPrefix pat pat = true := by
  induction pat with
  | nil => rfl
  | cons p ps ih => simp [wildPrefix, ih]

/-- A pattern made of literal characters and '.' always matches inside a
string that ends with the pattern itself. -/
theorem reSearch_suffix (pat pre : List Nat) : reSearch pat (pre ++ pat) = true := by
  induction pre with
  | nil =>
      cases pat with
      | nil => rfl
      | cons c cs => simp [reSearch, wildPrefix_self]
  | cons d pre ih => simp [reSearch, ih]

theorem sorted_fileTags (n : Nat) (hn : n ≤ 100000) (ext : List Nat) :
    List.Sorted (· < ·) ((List.range n).map (fileTag · ext)) := by
  rw [List.Sorted, List.pairwise_map]
  apply List.Pairwise.imp_of_mem ?_ (List.pairwise_lt_range n)
  intro a b _ hb hab
  have hb' : b < n := List.mem_range.mp hb
  exact fileTag_lex a b ext hab (by omega)

/-- C3.  Inverse-compatibility of exporter and loader ordering: the exporter
names frame i as 'frame' + str(i).zfill(5) + extension, and the loader keeps
exactly the listing entries matched by re.search(extension, name) and sorts
them lexicographically; hence for any number of frames up to 100000 and ANY
filesystem enumeration order of the exported files (any permutation of the
exporter's output), the loader's sorted filename list is exactly the
exporter's output in ascending frame-index order. -/
theorem c3_export_import_order (n : Nat) (ext : List Nat)
    (listing : List (List Nat)) (hn : n ≤ 100000)
    (hperm : listing.Perm ((tdms_to_images_save false false [] n ext).savedFiles)) :
    loader_filenames listing ext =
      (tdms_to_images_save false false [] n ext).savedFiles := by
  have hsaved : (tdms_to_images_save false false [] n ext).savedFiles =
      (List.range n).map (fileTag · ext) := rfl
  rw [hsaved] at hperm ⊢
  have hfilter : (listing.filter fun x => reSearch ext x) = listing := by
    rw [List.filter_eq_self]
    intro a ha
    rcases List.mem_map.mp (hperm.subset ha) with ⟨k, _, rfl⟩
    rw [fileTag]
    exact reSearch_suffix ext (frameChars ++ zfill 5 (pyStr k))
  rw [loader_filenames, hfilter]
  have hsorted_lt : List.Sorted (· < ·) ((List.range n).map (fileTag · ext)) :=
    sorted_fileTags n hn ext
  have hsorted_le : List.Sorted (· ≤ ·) ((List.range n).map (fileTag · ext)) :=
    hsorted_lt.imp fun h => le_of_lt h
  exact List.eq_of_perm_of_sorted
    ((List.perm_insertionSort (· ≤ ·) listing).trans hperm)
    (List.sorted_insertionSort (· ≤ ·) listing)
    hsorted_le

/-- Concrete instance of C3: two exported frames enumerated in reversed
order are loaded back in ascending frame order. -/
theorem c3_export_import_order_witness :
    loader_filenames [fileTag 1 tiffChars, fileTag 0 tiffChars] tiffChars =
      (tdms_to_images_save false false [] 2 tiffChars).savedFiles := by
  apply c3_export_import_order 2 tiffChars
    [fileTag 1 tiffChars, fileTag 0 tiffChars] (by omega)
  have h2 : (tdms_to_images_save false false [] 2 tiffChars).savedFiles =
      [fileTag 0 tiffChars, fileTag 1 tiffChars] := by
    show (List.range 2).map (fileTag · tiffChars) = _
    rw [List.range_succ, List.range_succ, List.range_zero]
    simp
  rw [h2]
  exact List.Perm.swap (fileTag 0 tiffChars) (fileTag 1 tiffChars) []

end ISCAT
